import Mathlib

/-!
Verification development for the SLATE tile-parallel execution engine.

This file gives a shallow embedding, in Lean 4, of the scheduling and
control-flow structure of the repository's code:

* the lookahead-pipelined Hermitian rank-k update
  (`internal::specialization::herk`, src/slate_herk.cc),
* the public `slate::herk` entry point's option handling,
* the mixed-precision iterative-refinement controller `gesv_mixed`
  (src/unnamed/part_000),
* the host-flush epilogue of the pipelined herk,
* the staged eigensolver `heev` (src/src/heev.cc).

Numerical kernels (`internal::herk`, `getrf`, `getrs`, `gemm`, `sterf`, ...)
are external collaborators of the verified components; they are represented
as abstract functions, and theorems quantify over them.
-/

namespace Slate

/-! ## The herk task graph (src/slate_herk.cc, lines 91-156)

The OpenMP task region of `internal::specialization::herk` creates two kinds
of tasks: `bcast k` (the task broadcasting block column `k` of `A`, writing
dependency token `bcast[k]`) and `advance k` (the task performing the `herk`
update with block column `k`, writing token `gemm[k]`).  `taskDeps` records,
for each task, the tasks whose tokens it declares with `depend(in:...)`. -/

/-- A task of the pipelined herk: `bcast k` broadcasts block column `k` of
`A` (tokens `bcast[k]`); `advance k` applies the rank-`nb` update with block
column `k` (tokens `gemm[k]`, called `gemm` in the source). -/
inductive HerkTask where
  | bcast (k : Nat)
  | advance (k : Nat)
  deriving DecidableEq, Repr

/-- Dependencies declared by each task of `internal::specialization::herk`:
* `bcast 0` has no `in` dependency (line 96);
* `bcast k` for `1 <= k <= lookahead` depends on `bcast (k-1)` (lines 107-109);
* `bcast (k+lookahead)` for `k >= 1` depends on `gemm[k-1]` (i.e. `advance
  (k-1)`) and `bcast[k+lookahead-1]` (lines 132-135);
* `advance 0` depends on `bcast 0` (lines 121-122);
* `advance k` for `k >= 1` depends on `bcast k` and `advance (k-1)`
  (lines 147-149). -/
def taskDeps (la : Nat) : HerkTask → List HerkTask
  | .bcast 0 => []
  | .bcast (k+1) =>
      if k + 1 ≤ la then [.bcast k]
      else [.advance (k - la), .bcast k]
  | .advance 0 => [.bcast 0]
  | .advance (k+1) => [.bcast (k+1), .advance k]

/-- All tasks created by the task region for `NT = A.nt()` panel steps:
broadcasts of block columns `0 .. NT-1` (created either in the prologue,
lines 96-118, or in the main loop, lines 132-144) and the `NT` herk updates
(lines 121-127 and 147-154). -/
def allTasks (NT : Nat) : List HerkTask :=
  (List.range NT).map HerkTask.bcast ++ (List.range NT).map HerkTask.advance

/-- An execution order of the OpenMP task pool: tasks start one at a time,
and a task may start only if every task it declares an `in` dependency on
has already completed.  `Sched la NT s` says the sequence `s` of task
completions is reachable. -/
inductive Sched (la NT : Nat) : List HerkTask → Prop where
  | nil : Sched la NT []
  | snoc (s : List HerkTask) (t : HerkTask) :
      Sched la NT s →
      t ∈ allTasks NT →
      t ∉ s →
      (∀ d ∈ taskDeps la t, d ∈ s) →
      Sched la NT (s ++ [t])

/-- The `k` indices of the `advance` (herk-update) tasks of a task sequence,
in completion order. -/
def advKs (s : List HerkTask) : List Nat :=
  s.filterMap fun t =>
    match t with
    | .advance k => some k
    | .bcast _ => none

/-- The effect of an executed task sequence on the mathematical content of
`C`: a `bcast` task only moves read-only copies of `A` tiles, so it leaves
`C` unchanged; `advance k` applies the update `step k`
(`internal::herk<target>` with block column `k`). -/
def runTasks {γ : Type} (step : Nat → γ → γ) (s : List HerkTask) (c : γ) : γ :=
  s.foldl
    (fun c t =>
      match t with
      | .advance k => step k c
      | .bcast _ => c)
    c

/-- The fully serial reference semantics: the `NT` panel updates applied in
order `k = 0, 1, ..., NT-1`. -/
def serialHerk {γ : Type} (step : Nat → γ → γ) (NT : Nat) (c : γ) : γ :=
  (List.range NT).foldl (fun c k => step k c) c

/-- The four backend targets of the dispatcher (`Target` template
parameter; slate_herk.cc lines 184-189). -/
inductive Target where
  | HostTask | HostNest | HostBatch | Devices
  deriving DecidableEq, Repr

/-- Modelled from the spec: the per-step kernel `internal::herk<target>` is
an external collaborator, not part of the sources here; per the
backend-dispatcher contract ("all four strategies must be semantically
interchangeable — same inputs produce numerically equivalent outputs") one
abstract `step` function serves every target, and the target choice does not
alter the task graph (the task region of slate_herk.cc is shared by all
targets).  `runHerkPipeline` is therefore `runTasks` for every target. -/
def runHerkPipeline {γ : Type} (_t : Target) (step : Nat → γ → γ)
    (s : List HerkTask) (c : γ) : γ :=
  runTasks step s c

/-! ## Public herk entry point: option handling (src/slate_herk.cc, lines 215-232) -/

/-- The option keys of the configuration surface consumed by this core. -/
inductive OptionName where
  | Lookahead | TargetOpt | Tolerance | MaxIterations | UseFallbackSolver
  deriving DecidableEq, Repr

/-- `opts.at(key)` lookup in the `std::map<Option, Value>` options map,
returning `none` where the C++ `at` throws `std::out_of_range`. -/
def optLookup (opts : List (OptionName × Int)) (key : OptionName) : Option Int :=
  match opts with
  | [] => none
  | (k2, v) :: rest => if k2 = key then some v else optLookup rest key

/-- The lookahead value with which `slate::herk` invokes
`internal::specialization::herk` (slate_herk.cc lines 220-228): the
`Option::Lookahead` entry's integer value, or `1` when the `at` call throws
`out_of_range` (no entry present). -/
def herkLookahead (opts : List (OptionName × Int)) : Int :=
  match optLookup opts OptionName.Lookahead with
  | some v => v
  | none => 1

/-! ## Mixed-precision iterative refinement (src/unnamed/part_000, gesv_mixed)

The controller is embedded over an abstract environment of collaborator
operations; `M` is the type of full-precision (hi) matrix contents, `Mlo`
the reduced-precision contents, `P` pivot sequences.  All numeric kernels
(`getrf`, `getrs`, `gemm`, `add`, the precision-conversion `copy`s, and the
convergence test built from `colNorms` and `iterRefConverged`) are opaque
collaborators, so the embedding is parametric in them. -/

/-- The collaborator operations used by `gesv_mixed`:
* `lo`/`hi`: the precision-narrowing/widening `copy` calls,
* `getrf_lo`: low-precision LU factorization, returning `(info, factored
  matrix, pivots)` (line 183),
* `getrs_lo`: low-precision triangular solve, `(A_lo, pivots, rhs) -> X_lo`,
* `getrf_hi`/`getrs_hi`: the full-precision fallback factor/solve,
* `residual`: `(A, X, B) -> B - A*X`, the `copy(B,R)` plus `gemm` pair
  (lines 198-204 and 236-242),
* `addUpdate`: `(R, X) -> X + R`, the `add` call (lines 230-232),
* `conv`: `(R, X) -> ` the `internal::iterRefConverged(colnorms_R,
  colnorms_X, cte)` test (lines 211, 249). -/
structure GesvEnv (M Mlo P : Type) where
  lo : M → Mlo
  hi : Mlo → M
  getrf_lo : Mlo → Int × Mlo × P
  getrs_lo : Mlo → P → Mlo → Mlo
  getrf_hi : M → Int × M × P
  getrs_hi : M → P → M → M
  residual : M → M → M → M
  addUpdate : M → M → M
  conv : M → M → Bool

/-- Result of `gesv_mixed`: returned `info`, output `iter`, final contents
of `A` and `X`, output pivots, plus execution-trace observables: whether the
full-precision fallback factorization ran (`usedFallback`), whether the
full-precision solve ran (`hiSolved`), the number of low-precision
triangular solves (`loSolves`) and of refinement-loop passes (`passes`). -/
structure GesvResult (M P : Type) where
  info : Int
  iter : Int
  A : M
  X : M
  piv : P
  usedFallback : Bool
  hiSolved : Bool
  loSolves : Nat
  passes : Nat
  deriving Repr

/-- One pass of the refinement loop body (lines 218-242): cast the residual
down, solve with the low-precision factors, cast the correction up, add it
to the iterate, recompute the residual. -/
def refStep {M Mlo P : Type} (env : GesvEnv M Mlo P) (A B : M) (A_lo : Mlo)
    (piv : P) (p : M × M) : M × M :=
  let corr := env.hi (env.getrs_lo A_lo piv (env.lo p.2))
  let X2 := env.addUpdate corr p.1
  (X2, env.residual A X2 B)

/-- The refinement iterate sequence (no early exit): `refIter ... i` is the
pair `(X, R)` after `i` correction passes of the loop body (lines 218-253),
starting from the initial iterate `(X, R)` of lines 189-204. -/
def refIter {M Mlo P : Type} (env : GesvEnv M Mlo P) (A B : M) (A_lo : Mlo)
    (piv : P) (X R : M) : Nat → M × M
  | 0 => (X, R)
  | i + 1 => refStep env A B A_lo piv (refIter env A B A_lo piv X R i)

/-- `passConv ... i` is the convergence check after `i` passes:
`passConv ... 0` is the first check (line 211, before any refinement pass);
`passConv ... i` for `i >= 1` is the check at the end of refinement pass `i`
(line 249). -/
def passConv {M Mlo P : Type} (env : GesvEnv M Mlo P) (A B : M) (A_lo : Mlo)
    (piv : P) (X R : M) (i : Nat) : Bool :=
  let p := refIter env A B A_lo piv X R i
  env.conv p.2 p.1

/-- The refinement loop (lines 218-253): runs at most `fuel` more passes,
with `iiter` passes already done, current iterate `(X, R)`.  Returns
`(some i, X, R, c)` when the check of pass `i` (1-based) first succeeds, and
`(none, X, R, c)` when the fuel runs out unconverged; `c` counts executed
passes. -/
def refineLoop {M Mlo P : Type} (env : GesvEnv M Mlo P) (A B : M) (A_lo : Mlo)
    (piv : P) : Nat → Nat → M → M → Option Nat × M × M × Nat
  | 0, _, X, R => (none, X, R, 0)
  | fuel + 1, iiter, X, R =>
      let p := refStep env A B A_lo piv (X, R)
      if env.conv p.2 p.1 then (some (iiter + 1), p.1, p.2, 1)
      else
        let r := refineLoop env A B A_lo piv fuel (iiter + 1) p.1 p.2
        (r.1, r.2.1, r.2.2.1, r.2.2.2 + 1)

/-- The tail of `gesv_mixed` on the not-converged paths (lines 256-278):
`iterOut` is the value `iter` holds on entry to the fallback block (already
`-3` or `-itermax-1`), `infoLo` the info of the low-precision factorization,
`Xcur` the current contents of `X`, `piv` the current pivots. -/
def gesvFallback {M Mlo P : Type} (env : GesvEnv M Mlo P)
    (use_fallback : Bool) (A B Xcur : M) (piv : P) (iterOut infoLo : Int)
    (loSolves passes : Nat) : GesvResult M P :=
  if use_fallback then
    let fhi := env.getrf_hi A
    if fhi.1 = 0 then
      { info := fhi.1, iter := iterOut, A := fhi.2.1
        X := env.getrs_hi fhi.2.1 fhi.2.2 B, piv := fhi.2.2
        usedFallback := true, hiSolved := true
        loSolves := loSolves, passes := passes }
    else
      { info := fhi.1, iter := iterOut, A := fhi.2.1, X := Xcur
        piv := fhi.2.2, usedFallback := true, hiSolved := false
        loSolves := loSolves, passes := passes }
  else
    { info := infoLo, iter := iterOut, A := A, X := Xcur, piv := piv
      usedFallback := false, hiSolved := false
      loSolves := loSolves, passes := passes }

/-- `slate::gesv_mixed` (src/unnamed/part_000, lines 106-289), with the
numeric collaborators abstracted into `env`; `X0` is the (unspecified)
entry contents of the output argument `X`, `piv0` of `pivots`. -/
def gesv_mixed {M Mlo P : Type} (env : GesvEnv M Mlo P) (itermax : Int)
    (use_fallback : Bool) (A B X0 : M) (_piv0 : P) : GesvResult M P :=
  let flo := env.getrf_lo (env.lo A)
  if flo.1 ≠ 0 then
    -- line 186: iter = -3; converged stays false; fall through to line 256
    gesvFallback env use_fallback A B X0 flo.2.2 (-3) flo.1 0 0
  else
    -- lines 189-204: low-precision solve, widen, first residual
    let X1 := env.hi (env.getrs_lo flo.2.1 flo.2.2 (env.lo B))
    let R1 := env.residual A X1 B
    if env.conv R1 X1 then
      -- line 212: iter = 0, converged
      { info := flo.1, iter := 0, A := A, X := X1, piv := flo.2.2
        usedFallback := false, hiSolved := false, loSolves := 1, passes := 0 }
    else
      let r := refineLoop env A B flo.2.1 flo.2.2 itermax.toNat 0 X1 R1
      match r.1 with
      | some i =>
          -- line 250: iter = iiter+1, converged
          { info := flo.1, iter := (i : Int), A := A, X := r.2.1
            piv := flo.2.2, usedFallback := false, hiSolved := false
            loSolves := 1 + r.2.2.2, passes := r.2.2.2 }
      | none =>
          -- line 260: iter = -itermax - 1, then the fallback block
          gesvFallback env use_fallback A B r.2.1 flo.2.2 (-itermax - 1)
            flo.1 (1 + r.2.2.2) r.2.2.2

/-- The low-precision factorization's `(info, A_lo, pivots)` for input `A`
(line 183). -/
def gesvFlo {M Mlo P : Type} (env : GesvEnv M Mlo P) (A : M) : Int × Mlo × P :=
  env.getrf_lo (env.lo A)

/-- The first iterate `X` of `gesv_mixed` (lines 191-195). -/
def gesvX1 {M Mlo P : Type} (env : GesvEnv M Mlo P) (A B : M) : M :=
  env.hi (env.getrs_lo (gesvFlo env A).2.1 (gesvFlo env A).2.2 (env.lo B))

/-- The first residual `R = B - A*X` of `gesv_mixed` (lines 198-204). -/
def gesvR1 {M Mlo P : Type} (env : GesvEnv M Mlo P) (A B : M) : M :=
  env.residual A (gesvX1 env A B) B

/-- The convergence check of `gesv_mixed` after `i` refinement passes, with
`i = 0` the first check of line 211. -/
def gesvConvAt {M Mlo P : Type} (env : GesvEnv M Mlo P) (A B : M) (i : Nat) :
    Bool :=
  passConv env A B (gesvFlo env A).2.1 (gesvFlo env A).2.2
    (gesvX1 env A B) (gesvR1 env A B) i

/-- The refinement loop of `gesv_mixed` as invoked on the
low-precision-factorization-succeeded, first-check-failed path. -/
def gesvLoop {M Mlo P : Type} (env : GesvEnv M Mlo P) (itermax : Int)
    (A B : M) : Option Nat × M × M × Nat :=
  refineLoop env A B (gesvFlo env A).2.1 (gesvFlo env A).2.2 itermax.toNat 0
    (gesvX1 env A B) (gesvR1 env A B)

/-! ## Flush epilogue of the pipelined herk (src/slate_herk.cc, lines 158-164) -/

/-- Modelled from the spec: the tile residency model behind `tileMoveToHost`
and `clearWorkspace` (the `BaseMatrix` tile-residency members are not among
the sources here).  Per the spec's data model, a tile has an authoritative
host origin copy and possibly a device-resident workspace copy holding the
latest contents; `host` is the origin contents and `dev` the workspace copy,
`some v` when a device copy (holding `v`, the current contents) exists. -/
structure DTile (γ : Type) where
  host : γ
  dev : Option γ
  deriving Repr, DecidableEq

/-- The contents an operation on the tile observes: the device workspace
copy when present (it holds the latest writes), otherwise the host origin. -/
def tileRead {γ : Type} (t : DTile γ) : γ :=
  t.dev.getD t.host

/-- Modelled from the spec: `tileMoveToHost(i, j, dev)` reconciles the
device workspace copy back to the host origin and removes it. -/
def tileMoveToHost {γ : Type} (t : DTile γ) : DTile γ :=
  ⟨t.dev.getD t.host, none⟩

/-- The tiles of the distributed matrix `C`, indexed by `(i, j)`. -/
def TileMap (γ : Type) : Type := Nat × Nat → DTile γ

/-- Pointwise update of one tile. -/
def updTile {γ : Type} (C : TileMap γ) (p : Nat × Nat) (t : DTile γ) :
    TileMap γ :=
  fun q => if q = p then t else C q

/-- The tile indices visited by the epilogue loop (lines 159-161): `j` over
`0..nt-1`, `i` over `j..mt-1` (lower triangle), keeping the locally-owned
ones. -/
def lowerLocalIdx (mt nt : Nat) (isLocal : Nat → Nat → Bool) :
    List (Nat × Nat) :=
  (List.range nt).flatMap fun j =>
    ((List.range mt).filter fun i => decide (j ≤ i) && isLocal i j).map
      fun i => (i, j)

/-- The epilogue's move loop (lines 159-162): `tileMoveToHost` on every
locally-owned tile of the stored (lower) triangle. -/
def herkMoveLower {γ : Type} (mt nt : Nat) (isLocal : Nat → Nat → Bool)
    (C : TileMap γ) : TileMap γ :=
  (lowerLocalIdx mt nt isLocal).foldl
    (fun Cm p => updTile Cm p (tileMoveToHost (Cm p))) C

/-- Modelled from the spec: `clearWorkspace` (line 164) deletes every
workspace (non-origin) tile copy. -/
def clearWorkspace {γ : Type} (C : TileMap γ) : TileMap γ :=
  fun p => ⟨(C p).host, none⟩

/-- The whole epilogue of `internal::specialization::herk`
(lines 158-164): move every locally-owned lower-triangle tile to host, then
clear all workspace. -/
def herkEpilogue {γ : Type} (mt nt : Nat) (isLocal : Nat → Nat → Bool)
    (C : TileMap γ) : TileMap γ :=
  clearWorkspace (herkMoveLower mt nt isLocal C)

/-! ## Staged eigensolver (src/src/heev.cc) -/

/-- The computational stages of `heev`, in source order: distributed band
reduction (line 64), gather of the band matrix to the single designated
process (line 71), resize of the eigenvalue vector (line 74), band-to-
tridiagonal reduction (line 77), extraction of the diagonals (line 81), and
the tridiagonal QR-iteration eigensolver (line 85). -/
inductive HeevStage where
  | he2hb | he2hbGather | resizeW | hb2st | copyhb2st | sterf
  deriving DecidableEq, Repr

/-- The sequence of stages process `rank` executes in `heev` (heev.cc lines
62-92): `he2hb` and the gather run on every process; `hb2st`, `copyhb2st`
and `sterf` run only inside the `if (A.mpiRank() == 0)` block (line 75). -/
def heevStages (rank : Nat) : List HeevStage :=
  [HeevStage.he2hb, HeevStage.he2hbGather, HeevStage.resizeW]
    ++ (if rank = 0 then
          [HeevStage.hb2st, HeevStage.copyhb2st, HeevStage.sterf]
        else [])

/-- `std::vector::resize(n)` contents semantics: keep the first
`min n (length w)` entries, pad with value-initialized entries `d`. -/
def vecResize {α : Type} (w : List α) (n : Nat) (d : α) : List α :=
  w.take n ++ List.replicate (n - w.length) d

/-- The final contents of the eigenvalue vector `W` on process `rank`
(heev.cc lines 74-92): every process resizes `W` to length `n` (line 74);
only on rank 0 is `W` then overwritten — by `copyhb2st` and then `sterf`,
whose computed eigenvalues are abstracted as `eig` — and no broadcast
follows (the `todo: bcast W` of line 91). -/
def heevW {α : Type} (rank n : Nat) (d : α) (eig : Nat → α) (w : List α) :
    List α :=
  let w1 := vecResize w n d
  if rank = 0 then (List.range n).map eig else w1

/-! ## Concrete collaborator environments (used to evaluate the embedding
on closed inputs) -/

/-- Collaborators over `Nat` contents whose convergence test always
succeeds: refinement converges at the first check. -/
def envConvNow : GesvEnv Nat Nat Unit where
  lo := id
  hi := id
  getrf_lo := fun a => (0, a, ())
  getrs_lo := fun _ _ x => x
  getrf_hi := fun a => (0, a, ())
  getrs_hi := fun _ _ x => x
  residual := fun _ x _ => x
  addUpdate := fun _ x => x + 1
  conv := fun _ _ => true

/-- Collaborators over `Nat` contents where each pass increments the
iterate and the test succeeds once the iterate reaches 2: with `B = 0`,
convergence is first reached at refinement pass 2. -/
def envConvAt2 : GesvEnv Nat Nat Unit where
  lo := id
  hi := id
  getrf_lo := fun a => (0, a, ())
  getrs_lo := fun _ _ x => x
  getrf_hi := fun a => (0, a, ())
  getrs_hi := fun _ _ x => x
  residual := fun _ x _ => x
  addUpdate := fun _ x => x + 1
  conv := fun _ x => decide (2 ≤ x)

/-- Collaborators over `Nat` contents whose convergence test never
succeeds. -/
def envNever : GesvEnv Nat Nat Unit where
  lo := id
  hi := id
  getrf_lo := fun a => (0, a, ())
  getrs_lo := fun _ _ x => x
  getrf_hi := fun a => (0, a, ())
  getrs_hi := fun _ _ x => x
  residual := fun _ x _ => x
  addUpdate := fun _ x => x + 1
  conv := fun _ _ => false

/-- Collaborators where the low-precision factorization reports a singular
pivot at 1-based index 2, while the full-precision factorization would
succeed. -/
def envSingLo : GesvEnv Nat Nat Unit where
  lo := id
  hi := id
  getrf_lo := fun _ => (2, 0, ())
  getrs_lo := fun _ _ x => x
  getrf_hi := fun a => (0, a, ())
  getrs_hi := fun _ _ x => x
  residual := fun _ x _ => x
  addUpdate := fun _ x => x + 1
  conv := fun _ _ => false

/-- Collaborators where the low-precision factorization succeeds, the test
never passes, and the full-precision fallback factorization reports a
singular pivot at 1-based index 3. -/
def envSingHi : GesvEnv Nat Nat Unit where
  lo := id
  hi := id
  getrf_lo := fun a => (0, a, ())
  getrs_lo := fun _ _ x => x
  getrf_hi := fun _ => (3, 0, ())
  getrs_hi := fun _ _ x => x
  residual := fun _ x _ => x
  addUpdate := fun _ x => x + 1
  conv := fun _ _ => false

/-! ## Lemmas and claim theorems -/

lemma advKs_append (s₁ s₂ : List HerkTask) :
    advKs (s₁ ++ s₂) = advKs s₁ ++ advKs s₂ := by
  simp [advKs, List.filterMap_append]

lemma mem_advKs {k : Nat} {s : List HerkTask} :
    k ∈ advKs s ↔ HerkTask.advance k ∈ s := by
  simp only [advKs, List.mem_filterMap]
  constructor
  · rintro ⟨t, ht, he⟩
    cases t with
    | advance k2 =>
        simp only [Option.some.injEq] at he
        subst he; exact ht
    | bcast k2 => simp at he
  · intro h
    exact ⟨HerkTask.advance k, h, rfl⟩

/-- In any reachable execution order, the herk-update tasks complete in
strictly increasing `k` order starting at 0: the completed updates are
always exactly `0, 1, ..., m-1` for some `m`. -/
lemma sched_advKs {la NT : Nat} {s : List HerkTask} (hs : Sched la NT s) :
    advKs s = List.range (advKs s).length := by
  induction hs with
  | nil => simp [advKs]
  | snoc s t _hs _hmem hnot hdeps ih =>
      cases t with
      | bcast k =>
          have : advKs (s ++ [HerkTask.bcast k]) = advKs s := by
            simp [advKs_append, advKs]
          rw [this, ih]
          simp [List.length_range]
      | advance k =>
          have hadv : advKs (s ++ [HerkTask.advance k]) = advKs s ++ [k] := by
            simp [advKs_append, advKs]
          have hknot : k ∉ advKs s := fun hk => hnot (mem_advKs.mp hk)
          have hge : (advKs s).length ≤ k := by
            by_contra hlt
            push_neg at hlt
            exact hknot (by rw [ih]; exact List.mem_range.mpr hlt)
          have hle : k ≤ (advKs s).length := by
            cases k with
            | zero => exact Nat.zero_le _
            | succ k2 =>
                have hd : HerkTask.advance k2 ∈ s := by
                  apply hdeps
                  simp [taskDeps]
                have : k2 ∈ advKs s := mem_advKs.mpr hd
                rw [ih] at this
                exact Nat.succ_le_of_lt (List.mem_range.mp this)
          have hk : k = (advKs s).length := le_antisymm hle hge
          rw [hadv, ih, hk]
          simp [List.range_succ]

lemma advKs_map_bcast (l : List Nat) : advKs (l.map HerkTask.bcast) = [] := by
  induction l with
  | nil => rfl
  | cons a l _ih => simp [advKs, List.filterMap_cons]

lemma advKs_map_advance (l : List Nat) : advKs (l.map HerkTask.advance) = l := by
  induction l with
  | nil => rfl
  | cons a l ih => simp [advKs, List.filterMap_cons] at ih ⊢; exact ih

/-- `advKs` of the full task list is `range NT`. -/
lemma advKs_allTasks (NT : Nat) : advKs (allTasks NT) = List.range NT := by
  rw [allTasks, advKs_append, advKs_map_bcast, advKs_map_advance, List.nil_append]

/-- Running a task sequence affects `C` exactly through its advance steps,
in order. -/
lemma runTasks_eq_foldl_advKs {γ : Type} (step : Nat → γ → γ)
    (s : List HerkTask) (c : γ) :
    runTasks step s c = (advKs s).foldl (fun c k => step k c) c := by
  induction s generalizing c with
  | nil => rfl
  | cons t ts ih =>
      cases t with
      | advance k => simp [runTasks, advKs, List.filterMap_cons] at ih ⊢; exact ih _
      | bcast k => simp [runTasks, advKs, List.filterMap_cons] at ih ⊢; exact ih _

/-- Core lemma: every complete reachable execution of the task graph leaves
`C` in the serial state. -/
lemma run_complete_eq_serial {γ : Type} {la NT : Nat} {s : List HerkTask}
    (step : Nat → γ → γ) (c : γ)
    (hs : Sched la NT s) (hp : s.Perm (allTasks NT)) :
    runTasks step s c = serialHerk step NT c := by
  have h1 : advKs s = List.range (advKs s).length := sched_advKs hs
  have h2 : (advKs s).Perm (advKs (allTasks NT)) := by
    simpa [advKs] using hp.filterMap _
  have h3 : (advKs s).length = NT := by
    have := h2.length_eq
    rwa [advKs_allTasks, List.length_range] at this
  have h4 : advKs s = List.range NT := by rw [h1, h3]
  rw [runTasks_eq_foldl_advKs, h4]
  rfl

/-- The task completing a reachable execution had all of its declared
dependencies completed earlier. -/
lemma sched_snoc_deps {la NT : Nat} {s : List HerkTask} {t : HerkTask}
    (hs : Sched la NT (s ++ [t])) : ∀ d ∈ taskDeps la t, d ∈ s := by
  generalize hq : s ++ [t] = q at hs
  cases hs with
  | nil => exact absurd hq (by simp)
  | snoc s2 t2 _ _ _ hdeps =>
      obtain ⟨hs2, ht2⟩ := List.append_inj' hq rfl
      have ht : t = t2 := by
        simpa using ht2
      subst hs2; subst ht
      exact hdeps

/-! ### Refinement-loop lemmas -/

lemma refStep_pair_eta {M Mlo P : Type} (env : GesvEnv M Mlo P) (A B : M)
    (A_lo : Mlo) (piv : P) (X R : M) (i : Nat) :
    refStep env A B A_lo piv
        ((refIter env A B A_lo piv X R i).1,
         (refIter env A B A_lo piv X R i).2)
      = refIter env A B A_lo piv X R (i + 1) := rfl

/-- If no check from pass `iiter+1` through `iiter+fuel` succeeds, the loop
consumes all its fuel, ending at iterate `iiter+fuel` with no convergence
flag. -/
lemma refineLoop_none {M Mlo P : Type} (env : GesvEnv M Mlo P) (A B : M)
    (A_lo : Mlo) (piv : P) (X R : M) (fuel : Nat) :
    ∀ iiter : Nat,
      (∀ j : Nat, iiter < j → j ≤ iiter + fuel →
        passConv env A B A_lo piv X R j = false) →
      refineLoop env A B A_lo piv fuel iiter
          (refIter env A B A_lo piv X R iiter).1
          (refIter env A B A_lo piv X R iiter).2
        = (none, (refIter env A B A_lo piv X R (iiter + fuel)).1,
            (refIter env A B A_lo piv X R (iiter + fuel)).2, fuel) := by
  induction fuel with
  | zero => intro iiter _; simp [refineLoop]
  | succ fuel ih =>
      intro iiter hall
      have hc : passConv env A B A_lo piv X R (iiter + 1) = false :=
        hall (iiter + 1) (by omega) (by omega)
      simp only [passConv] at hc
      simp only [refineLoop, refStep_pair_eta, hc, if_false, Bool.false_eq_true]
      have ihc := ih (iiter + 1) (fun j h1 h2 => hall j (by omega) (by omega))
      rw [ihc]
      have harith : iiter + 1 + fuel = iiter + (fuel + 1) := by omega
      rw [harith]

/-- If the check first succeeds at pass `i` with `iiter < i <= iiter+fuel`,
the loop stops there: converged flag `some i`, iterate `i`, and `i - iiter`
passes executed. -/
lemma refineLoop_some {M Mlo P : Type} (env : GesvEnv M Mlo P) (A B : M)
    (A_lo : Mlo) (piv : P) (X R : M) (fuel : Nat) :
    ∀ iiter i : Nat, iiter < i → i ≤ iiter + fuel →
      passConv env A B A_lo piv X R i = true →
      (∀ j : Nat, iiter < j → j < i →
        passConv env A B A_lo piv X R j = false) →
      refineLoop env A B A_lo piv fuel iiter
          (refIter env A B A_lo piv X R iiter).1
          (refIter env A B A_lo piv X R iiter).2
        = (some i, (refIter env A B A_lo piv X R i).1,
            (refIter env A B A_lo piv X R i).2, i - iiter) := by
  induction fuel with
  | zero => intro iiter i h1 h2 _ _; omega
  | succ fuel ih =>
      intro iiter i h1 h2 hconv hmin
      by_cases hi1 : i = iiter + 1
      · subst hi1
        simp only [passConv] at hconv
        simp only [refineLoop, refStep_pair_eta, hconv, if_true]
        have : iiter + 1 - iiter = 1 := by omega
        rw [this]
      · have hlt : iiter + 1 < i := by omega
        have hc : passConv env A B A_lo piv X R (iiter + 1) = false :=
          hmin (iiter + 1) (by omega) hlt
        simp only [passConv] at hc
        simp only [refineLoop, refStep_pair_eta, hc, if_false,
          Bool.false_eq_true]
        have ihc := ih (iiter + 1) i (by omega) (by omega) hconv
          (fun j hj1 hj2 => hmin j (by omega) hj2)
        rw [ihc]
        have harith : i - (iiter + 1) + 1 = i - iiter := by omega
        simp only [harith]

/-! ### Path-shape lemmas for `gesv_mixed` -/

/-- Low-precision factorization singular: straight to line 256 with
`iter = -3`, no solve and no pass performed. -/
lemma gesv_shape_neg {M Mlo P : Type} (env : GesvEnv M Mlo P)
    (itermax : Int) (ufb : Bool) (A B X0 : M) (piv0 : P)
    (hinfo : (gesvFlo env A).1 ≠ 0) :
    gesv_mixed env itermax ufb A B X0 piv0
      = gesvFallback env ufb A B X0 (gesvFlo env A).2.2 (-3) (gesvFlo env A).1
          0 0 := by
  simp only [gesvFlo] at hinfo
  simp only [gesv_mixed, gesvFlo]
  rw [if_pos hinfo]

/-- First check converged: `iter = 0`, no refinement pass, no fallback. -/
lemma gesv_shape_conv0 {M Mlo P : Type} (env : GesvEnv M Mlo P)
    (itermax : Int) (ufb : Bool) (A B X0 : M) (piv0 : P)
    (h0 : (gesvFlo env A).1 = 0) (hc : gesvConvAt env A B 0 = true) :
    gesv_mixed env itermax ufb A B X0 piv0
      = { info := (gesvFlo env A).1, iter := 0, A := A, X := gesvX1 env A B,
          piv := (gesvFlo env A).2.2, usedFallback := false,
          hiSolved := false, loSolves := 1, passes := 0 } := by
  have h0' : ¬(gesvFlo env A).1 ≠ 0 := by simp [h0]
  simp only [gesvFlo] at h0'
  simp only [gesvConvAt, passConv, refIter, gesvR1, gesvX1, gesvFlo] at hc
  simp only [gesv_mixed, gesvFlo, gesvX1]
  rw [if_neg h0', if_pos hc]

/-- Loop converged at pass `i`: `iter = i`, no fallback. -/
lemma gesv_shape_some {M Mlo P : Type} (env : GesvEnv M Mlo P)
    (itermax : Int) (ufb : Bool) (A B X0 : M) (piv0 : P) {i : Nat}
    (h0 : (gesvFlo env A).1 = 0) (hc : gesvConvAt env A B 0 = false)
    (hr : (gesvLoop env itermax A B).1 = some i) :
    gesv_mixed env itermax ufb A B X0 piv0
      = { info := (gesvFlo env A).1, iter := (i : Int), A := A,
          X := (gesvLoop env itermax A B).2.1, piv := (gesvFlo env A).2.2,
          usedFallback := false, hiSolved := false,
          loSolves := 1 + (gesvLoop env itermax A B).2.2.2,
          passes := (gesvLoop env itermax A B).2.2.2 } := by
  have h0' : ¬(gesvFlo env A).1 ≠ 0 := by simp [h0]
  simp only [gesvFlo] at h0'
  simp only [gesvConvAt, passConv, refIter, gesvR1, gesvX1, gesvFlo] at hc
  simp only [gesvLoop, gesvR1, gesvX1, gesvFlo] at hr ⊢
  simp only [gesv_mixed, gesvFlo]
  rw [if_neg h0', if_neg (by simp [hc]), hr]

/-- Loop exhausted without convergence: `iter = -itermax - 1`, then the
fallback block with the current iterate. -/
lemma gesv_shape_none {M Mlo P : Type} (env : GesvEnv M Mlo P)
    (itermax : Int) (ufb : Bool) (A B X0 : M) (piv0 : P)
    (h0 : (gesvFlo env A).1 = 0) (hc : gesvConvAt env A B 0 = false)
    (hr : (gesvLoop env itermax A B).1 = none) :
    gesv_mixed env itermax ufb A B X0 piv0
      = gesvFallback env ufb A B (gesvLoop env itermax A B).2.1
          (gesvFlo env A).2.2 (-itermax - 1) (gesvFlo env A).1
          (1 + (gesvLoop env itermax A B).2.2.2)
          (gesvLoop env itermax A B).2.2.2 := by
  have h0' : ¬(gesvFlo env A).1 ≠ 0 := by simp [h0]
  simp only [gesvFlo] at h0'
  simp only [gesvConvAt, passConv, refIter, gesvR1, gesvX1, gesvFlo] at hc
  simp only [gesvLoop, gesvR1, gesvX1, gesvFlo] at hr ⊢
  simp only [gesv_mixed, gesvFlo]
  rw [if_neg h0', if_neg (by simp [hc]), hr]

/-! ### Claim theorems -/

/-- C1: for every backend target, every lookahead value, and every complete
execution order the OpenMP runtime may choose for the pipelined herk's task
graph, the resulting `C` equals the fully serial result (all `NT` panel
steps in order), and in particular equals the result of any fully serial
run (lookahead = 0, per-tile-task backend): lookahead and backend choice
never change the outcome. -/
theorem herk_pipeline_serial_equivalence {γ : Type}
    (t : Target) (la NT : Nat) (step : Nat → γ → γ) (c : γ)
    (s : List HerkTask) (hs : Sched la NT s) (hp : s.Perm (allTasks NT))
    (s0 : List HerkTask) (hs0 : Sched 0 NT s0)
    (hp0 : s0.Perm (allTasks NT)) :
    runHerkPipeline t step s c = serialHerk step NT c
    ∧ runHerkPipeline t step s c
        = runHerkPipeline Target.HostTask step s0 c := by
  have h1 := run_complete_eq_serial step c hs hp
  have h2 := run_complete_eq_serial step c hs0 hp0
  exact ⟨h1, by rw [runHerkPipeline, runHerkPipeline, h1, h2]⟩

theorem herk_pipeline_serial_equivalence_witness :
    runHerkPipeline Target.Devices (fun k c => c + 2 * k + 1)
        [HerkTask.bcast 0, HerkTask.bcast 1, HerkTask.advance 0,
         HerkTask.advance 1] 0
      = serialHerk (fun k c => c + 2 * k + 1) 2 0
    ∧ runHerkPipeline Target.Devices (fun k c => c + 2 * k + 1)
        [HerkTask.bcast 0, HerkTask.bcast 1, HerkTask.advance 0,
         HerkTask.advance 1] 0
      = runHerkPipeline Target.HostTask (fun k c => c + 2 * k + 1)
        [HerkTask.bcast 0, HerkTask.advance 0, HerkTask.bcast 1,
         HerkTask.advance 1] 0 := by
  have h0 : Sched 1 2 [] := Sched.nil
  have h1 : Sched 1 2 [HerkTask.bcast 0] :=
    Sched.snoc [] (HerkTask.bcast 0) h0 (by decide) (by decide) (by decide)
  have h2 : Sched 1 2 [HerkTask.bcast 0, HerkTask.bcast 1] :=
    Sched.snoc [HerkTask.bcast 0] (HerkTask.bcast 1) h1 (by decide)
      (by decide) (by decide)
  have h3 : Sched 1 2
      [HerkTask.bcast 0, HerkTask.bcast 1, HerkTask.advance 0] :=
    Sched.snoc [HerkTask.bcast 0, HerkTask.bcast 1] (HerkTask.advance 0) h2
      (by decide) (by decide) (by decide)
  have h4 : Sched 1 2
      [HerkTask.bcast 0, HerkTask.bcast 1, HerkTask.advance 0,
       HerkTask.advance 1] :=
    Sched.snoc [HerkTask.bcast 0, HerkTask.bcast 1, HerkTask.advance 0]
      (HerkTask.advance 1) h3 (by decide) (by decide) (by decide)
  have g0 : Sched 0 2 [] := Sched.nil
  have g1 : Sched 0 2 [HerkTask.bcast 0] :=
    Sched.snoc [] (HerkTask.bcast 0) g0 (by decide) (by decide) (by decide)
  have g2 : Sched 0 2 [HerkTask.bcast 0, HerkTask.advance 0] :=
    Sched.snoc [HerkTask.bcast 0] (HerkTask.advance 0) g1 (by decide)
      (by decide) (by decide)
  have g3 : Sched 0 2
      [HerkTask.bcast 0, HerkTask.advance 0, HerkTask.bcast 1] :=
    Sched.snoc [HerkTask.bcast 0, HerkTask.advance 0] (HerkTask.bcast 1) g2
      (by decide) (by decide) (by decide)
  have g4 : Sched 0 2
      [HerkTask.bcast 0, HerkTask.advance 0, HerkTask.bcast 1,
       HerkTask.advance 1] :=
    Sched.snoc [HerkTask.bcast 0, HerkTask.advance 0, HerkTask.bcast 1]
      (HerkTask.advance 1) g3 (by decide) (by decide) (by decide)
  exact herk_pipeline_serial_equivalence Target.Devices 1 2
    (fun k c => c + 2 * k + 1) 0 _ h4 (by decide) _ g4 (by decide)

/-- C6: the dependency structure of the pipelined herk task graph —
`bcast 0` (disseminate(0)) has no input dependency; for `k >= 1` the task
producing broadcast token `k+lookahead` depends on `advance(k-1)` and on
`bcast(k+lookahead-1)`; `advance k` depends on `bcast k` and `advance(k-1)`;
in every reachable execution the advances complete strictly in `k` order
from 0; and a `bcast m` with `m > lookahead` can complete only after
`advance (m-lookahead-1)`, so no disseminate runs more than `lookahead`
steps ahead of the advancing step. -/
theorem herk_task_dependencies (la NT : Nat) :
    taskDeps la (HerkTask.bcast 0) = []
    ∧ (∀ k : Nat, 1 ≤ k →
        taskDeps la (HerkTask.bcast (k + la))
          = [HerkTask.advance (k - 1), HerkTask.bcast (k + la - 1)])
    ∧ (∀ k : Nat, 1 ≤ k →
        taskDeps la (HerkTask.advance k)
          = [HerkTask.bcast k, HerkTask.advance (k - 1)])
    ∧ (∀ s : List HerkTask, Sched la NT s →
        advKs s = List.range (advKs s).length)
    ∧ (∀ (s : List HerkTask) (m : Nat),
        Sched la NT (s ++ [HerkTask.bcast m]) → la + 1 ≤ m →
        HerkTask.advance (m - la - 1) ∈ s) := by
  refine ⟨rfl, ?_, ?_, ?_, ?_⟩
  · intro k hk
    obtain ⟨k2, rfl⟩ : ∃ k2, k = k2 + 1 := ⟨k - 1, by omega⟩
    have : k2 + 1 + la = (k2 + la) + 1 := by omega
    rw [this, taskDeps]
    rw [if_neg (by omega)]
    simp [Nat.add_sub_cancel]
  · intro k hk
    obtain ⟨k2, rfl⟩ : ∃ k2, k = k2 + 1 := ⟨k - 1, by omega⟩
    rw [taskDeps]
    have e1 : k2 = k2 + 1 - 1 := by omega
    rw [← e1]
  · intro s hs
    exact sched_advKs hs
  · intro s m hs hm
    have hdeps := sched_snoc_deps hs
    obtain ⟨m2, rfl⟩ : ∃ m2, m = m2 + 1 := ⟨m - 1, by omega⟩
    apply hdeps
    rw [taskDeps, if_neg (by omega)]
    have e1 : m2 - la = m2 + 1 - la - 1 := by omega
    rw [← e1]
    exact List.mem_cons_self _ _

theorem herk_task_dependencies_witness :
    taskDeps 1 (HerkTask.bcast 0) = []
    ∧ taskDeps 1 (HerkTask.bcast 2)
        = [HerkTask.advance 0, HerkTask.bcast 1]
    ∧ taskDeps 1 (HerkTask.advance 2)
        = [HerkTask.bcast 2, HerkTask.advance 1]
    ∧ advKs [HerkTask.bcast 0, HerkTask.bcast 1, HerkTask.advance 0]
        = List.range
            (advKs [HerkTask.bcast 0, HerkTask.bcast 1,
              HerkTask.advance 0]).length
    ∧ HerkTask.advance 0 ∈
        [HerkTask.bcast 0, HerkTask.bcast 1, HerkTask.advance 0] := by
  have h := herk_task_dependencies 1 3
  have s0 : Sched 1 3 [] := Sched.nil
  have s1 : Sched 1 3 [HerkTask.bcast 0] :=
    Sched.snoc [] (HerkTask.bcast 0) s0 (by decide) (by decide) (by decide)
  have s2 : Sched 1 3 [HerkTask.bcast 0, HerkTask.bcast 1] :=
    Sched.snoc [HerkTask.bcast 0] (HerkTask.bcast 1) s1 (by decide)
      (by decide) (by decide)
  have s3 : Sched 1 3
      [HerkTask.bcast 0, HerkTask.bcast 1, HerkTask.advance 0] :=
    Sched.snoc [HerkTask.bcast 0, HerkTask.bcast 1] (HerkTask.advance 0) s2
      (by decide) (by decide) (by decide)
  have s4 : Sched 1 3
      ([HerkTask.bcast 0, HerkTask.bcast 1, HerkTask.advance 0]
        ++ [HerkTask.bcast 2]) :=
    Sched.snoc [HerkTask.bcast 0, HerkTask.bcast 1, HerkTask.advance 0]
      (HerkTask.bcast 2) s3 (by decide) (by decide) (by decide)
  exact ⟨h.1, h.2.1 1 le_rfl, h.2.2.1 2 (by omega), h.2.2.2.1 _ s3,
    h.2.2.2.2 _ 2 s4 (by omega)⟩

lemma gesvFallback_iter {M Mlo P : Type} (env : GesvEnv M Mlo P) (ufb : Bool)
    (A B Xc : M) (piv : P) (it inf : Int) (ls ps : Nat) :
    (gesvFallback env ufb A B Xc piv it inf ls ps).iter = it := by
  simp only [gesvFallback]
  split
  · split <;> rfl
  · rfl

lemma gesvFallback_loSolves {M Mlo P : Type} (env : GesvEnv M Mlo P)
    (ufb : Bool) (A B Xc : M) (piv : P) (it inf : Int) (ls ps : Nat) :
    (gesvFallback env ufb A B Xc piv it inf ls ps).loSolves = ls := by
  simp only [gesvFallback]
  split
  · split <;> rfl
  · rfl

lemma gesvFallback_passes {M Mlo P : Type} (env : GesvEnv M Mlo P)
    (ufb : Bool) (A B Xc : M) (piv : P) (it inf : Int) (ls ps : Nat) :
    (gesvFallback env ufb A B Xc piv it inf ls ps).passes = ps := by
  simp only [gesvFallback]
  split
  · split <;> rfl
  · rfl

lemma gesvFallback_usedFallback {M Mlo P : Type} (env : GesvEnv M Mlo P)
    (ufb : Bool) (A B Xc : M) (piv : P) (it inf : Int) (ls ps : Nat) :
    (gesvFallback env ufb A B Xc piv it inf ls ps).usedFallback = ufb := by
  simp only [gesvFallback]
  rcases ufb with _ | _
  · rw [if_neg (by simp)]
  · rw [if_pos rfl]
    split <;> rfl

lemma gesvFallback_info {M Mlo P : Type} (env : GesvEnv M Mlo P) (ufb : Bool)
    (A B Xc : M) (piv : P) (it inf : Int) (ls ps : Nat) :
    (gesvFallback env ufb A B Xc piv it inf ls ps).info
      = if ufb = true then (env.getrf_hi A).1 else inf := by
  simp only [gesvFallback]
  rcases ufb with _ | _
  · rw [if_neg (by simp), if_neg (by simp)]
  · rw [if_pos rfl, if_pos rfl]
    split <;> rfl

lemma gesvFallback_A {M Mlo P : Type} (env : GesvEnv M Mlo P) (ufb : Bool)
    (A B Xc : M) (piv : P) (it inf : Int) (ls ps : Nat) :
    (gesvFallback env ufb A B Xc piv it inf ls ps).A
      = if ufb = true then (env.getrf_hi A).2.1 else A := by
  simp only [gesvFallback]
  rcases ufb with _ | _
  · rw [if_neg (by simp), if_neg (by simp)]
  · rw [if_pos rfl, if_pos rfl]
    split <;> rfl

lemma gesvFallback_piv {M Mlo P : Type} (env : GesvEnv M Mlo P) (ufb : Bool)
    (A B Xc : M) (piv : P) (it inf : Int) (ls ps : Nat) :
    (gesvFallback env ufb A B Xc piv it inf ls ps).piv
      = if ufb = true then (env.getrf_hi A).2.2 else piv := by
  simp only [gesvFallback]
  rcases ufb with _ | _
  · rw [if_neg (by simp), if_neg (by simp)]
  · rw [if_pos rfl, if_pos rfl]
    split <;> rfl

lemma gesvFallback_hiSolved {M Mlo P : Type} (env : GesvEnv M Mlo P)
    (ufb : Bool) (A B Xc : M) (piv : P) (it inf : Int) (ls ps : Nat) :
    (gesvFallback env ufb A B Xc piv it inf ls ps).hiSolved
      = (ufb && decide ((env.getrf_hi A).1 = 0)) := by
  simp only [gesvFallback]
  rcases ufb with _ | _
  · rw [if_neg (by simp)]
    rfl
  · rw [if_pos rfl]
    by_cases h : (env.getrf_hi A).1 = 0
    · rw [if_pos h]
      simp [h]
    · rw [if_neg h]
      simp [h]

/-- C2: the iteration count reported by `gesv_mixed` — when the convergence
predicate holds at the first check (before any refinement pass), `iter = 0`;
when convergence is first reached during refinement pass `i` (1-based,
`i <= itermax`), `iter = i`; and when the first check and all `itermax`
passes fail (the low-precision factorization having succeeded),
`iter = -(itermax+1)`. -/
theorem gesv_mixed_iter_semantics {M Mlo P : Type} (env : GesvEnv M Mlo P)
    (itermax : Int) (ufb : Bool) (A B X0 : M) (piv0 : P)
    (h0 : (gesvFlo env A).1 = 0) :
    (gesvConvAt env A B 0 = true →
        (gesv_mixed env itermax ufb A B X0 piv0).iter = 0)
    ∧ (∀ i : Nat, 1 ≤ i → (i : Int) ≤ itermax →
        gesvConvAt env A B i = true →
        (∀ j : Nat, j < i → gesvConvAt env A B j = false) →
        (gesv_mixed env itermax ufb A B X0 piv0).iter = (i : Int))
    ∧ (gesvConvAt env A B 0 = false →
        (∀ j : Nat, 1 ≤ j → (j : Int) ≤ itermax →
          gesvConvAt env A B j = false) →
        (gesv_mixed env itermax ufb A B X0 piv0).iter = -itermax - 1) := by
  refine ⟨?_, ?_, ?_⟩
  · intro hc
    rw [gesv_shape_conv0 env itermax ufb A B X0 piv0 h0 hc]
  · intro i h1 h2 hconv hmin
    have hc0 : gesvConvAt env A B 0 = false := hmin 0 (by omega)
    have hloop := refineLoop_some env A B (gesvFlo env A).2.1
      (gesvFlo env A).2.2 (gesvX1 env A B) (gesvR1 env A B) itermax.toNat
      0 i (by omega) (by omega) hconv (fun j _ hj2 => hmin j hj2)
    have hfull : gesvLoop env itermax A B
        = (some i,
            (refIter env A B (gesvFlo env A).2.1 (gesvFlo env A).2.2
              (gesvX1 env A B) (gesvR1 env A B) i).1,
            (refIter env A B (gesvFlo env A).2.1 (gesvFlo env A).2.2
              (gesvX1 env A B) (gesvR1 env A B) i).2, i - 0) := hloop
    have hr : (gesvLoop env itermax A B).1 = some i := by rw [hfull]
    rw [gesv_shape_some env itermax ufb A B X0 piv0 h0 hc0 hr]
  · intro hc0 hall
    have hloop := refineLoop_none env A B (gesvFlo env A).2.1
      (gesvFlo env A).2.2 (gesvX1 env A B) (gesvR1 env A B) itermax.toNat 0
      (fun j hj1 hj2 => hall j (by omega) (by omega))
    have hfull : gesvLoop env itermax A B
        = (none,
            (refIter env A B (gesvFlo env A).2.1 (gesvFlo env A).2.2
              (gesvX1 env A B) (gesvR1 env A B) (0 + itermax.toNat)).1,
            (refIter env A B (gesvFlo env A).2.1 (gesvFlo env A).2.2
              (gesvX1 env A B) (gesvR1 env A B) (0 + itermax.toNat)).2,
            itermax.toNat) := hloop
    have hr : (gesvLoop env itermax A B).1 = none := by rw [hfull]
    rw [gesv_shape_none env itermax ufb A B X0 piv0 h0 hc0 hr,
      gesvFallback_iter]

theorem gesv_mixed_iter_semantics_witness :
    (gesv_mixed envConvNow 30 true 1 2 0 ()).iter = 0
    ∧ (gesv_mixed envConvAt2 30 true 5 0 0 ()).iter = 2
    ∧ (gesv_mixed envNever 3 true 1 2 0 ()).iter = -4 := by
  refine ⟨?_, ?_, ?_⟩
  · exact (gesv_mixed_iter_semantics envConvNow 30 true 1 2 0 () rfl).1 rfl
  · exact (gesv_mixed_iter_semantics envConvAt2 30 true 5 0 0 () rfl).2.1 2
      (by omega) (by omega) (by decide)
      (by intro j hj; interval_cases j <;> decide)
  · exact ((gesv_mixed_iter_semantics envNever 3 true 1 2 0 () rfl).2.2
      rfl (fun j _ _ => rfl)).trans (by decide)

/-- C3: when the low-precision `getrf` reports a nonzero info,
`gesv_mixed` sets `iter = -3`, performs no low-precision solve and no
refinement pass, and, when the fallback policy is enabled, proceeds to the
full-precision factor-and-solve path. -/
theorem gesv_mixed_singular_low {M Mlo P : Type} (env : GesvEnv M Mlo P)
    (itermax : Int) (ufb : Bool) (A B X0 : M) (piv0 : P)
    (hinfo : (gesvFlo env A).1 ≠ 0) :
    (gesv_mixed env itermax ufb A B X0 piv0).iter = -3
    ∧ (gesv_mixed env itermax ufb A B X0 piv0).loSolves = 0
    ∧ (gesv_mixed env itermax ufb A B X0 piv0).passes = 0
    ∧ (ufb = true →
        (gesv_mixed env itermax ufb A B X0 piv0).usedFallback = true) := by
  rw [gesv_shape_neg env itermax ufb A B X0 piv0 hinfo]
  refine ⟨gesvFallback_iter _ _ _ _ _ _ _ _ _ _,
    gesvFallback_loSolves _ _ _ _ _ _ _ _ _ _,
    gesvFallback_passes _ _ _ _ _ _ _ _ _ _, ?_⟩
  intro hu
  rw [gesvFallback_usedFallback, hu]

theorem gesv_mixed_singular_low_witness :
    (gesv_mixed envSingLo 30 true 1 2 0 ()).iter = -3
    ∧ (gesv_mixed envSingLo 30 true 1 2 0 ()).loSolves = 0
    ∧ (gesv_mixed envSingLo 30 true 1 2 0 ()).passes = 0
    ∧ (gesv_mixed envSingLo 30 true 1 2 0 ()).usedFallback = true := by
  have h := gesv_mixed_singular_low envSingLo 30 true 1 2 0 () (by decide)
  exact ⟨h.1, h.2.1, h.2.2.1, h.2.2.2 rfl⟩

/-- C4 counterexample: with the fallback solver disabled and a singular
low-precision factorization, `gesv_mixed` returns the positive pivot index
reported by the reduced-precision factorization (here 2), while no
full-precision factorization ever ran (and the full-precision one would
have returned 0) — so a positive status can report a reduced-precision
pivot index, contradicting the claim. -/
theorem gesv_mixed_positive_info_counterexample :
    0 < (gesv_mixed envSingLo 30 false 1 2 0 ()).info
    ∧ (gesv_mixed envSingLo 30 false 1 2 0 ()).usedFallback = false
    ∧ (gesv_mixed envSingLo 30 false 1 2 0 ()).info
        = (envSingLo.getrf_lo (envSingLo.lo 1)).1
    ∧ (envSingLo.getrf_hi 1).1 = 0 := by
  refine ⟨by decide, by decide, by decide, by decide⟩

/-- C4 (amended): when the fallback policy is enabled, a positive returned
status is the info of the full-precision factorization (the fallback path
ran and no solution was produced); with the fallback policy disabled, a
positive status may instead be the reduced-precision factorization's pivot
index. -/
theorem gesv_mixed_positive_info {M Mlo P : Type} (env : GesvEnv M Mlo P)
    (itermax : Int) (A B X0 : M) (piv0 : P)
    (hpos : 0 < (gesv_mixed env itermax true A B X0 piv0).info) :
    (gesv_mixed env itermax true A B X0 piv0).usedFallback = true
    ∧ (gesv_mixed env itermax true A B X0 piv0).info = (env.getrf_hi A).1
    ∧ (gesv_mixed env itermax true A B X0 piv0).hiSolved = false := by
  by_cases h0 : (gesvFlo env A).1 = 0
  · by_cases hc : gesvConvAt env A B 0 = true
    · rw [gesv_shape_conv0 env itermax true A B X0 piv0 h0 hc] at hpos
      simp [h0] at hpos
    · rw [Bool.not_eq_true] at hc
      rcases hr : (gesvLoop env itermax A B).1 with _ | i
      · rw [gesv_shape_none env itermax true A B X0 piv0 h0 hc hr] at hpos ⊢
        have hinfo := gesvFallback_info env true A B
          (gesvLoop env itermax A B).2.1 (gesvFlo env A).2.2
          (-itermax - 1) (gesvFlo env A).1
          (1 + (gesvLoop env itermax A B).2.2.2)
          (gesvLoop env itermax A B).2.2.2
        rw [if_pos rfl] at hinfo
        refine ⟨by rw [gesvFallback_usedFallback], hinfo, ?_⟩
        rw [gesvFallback_hiSolved]
        have hne : (env.getrf_hi A).1 ≠ 0 := by
          rw [hinfo] at hpos
          omega
        simp [hne]
      · rw [gesv_shape_some env itermax true A B X0 piv0 h0 hc hr] at hpos
        simp [h0] at hpos
  · rw [gesv_shape_neg env itermax true A B X0 piv0 h0] at hpos ⊢
    have hinfo := gesvFallback_info env true A B X0 (gesvFlo env A).2.2
      (-3) (gesvFlo env A).1 0 0
    rw [if_pos rfl] at hinfo
    refine ⟨by rw [gesvFallback_usedFallback], hinfo, ?_⟩
    rw [gesvFallback_hiSolved]
    have hne : (env.getrf_hi A).1 ≠ 0 := by
      rw [hinfo] at hpos
      omega
    simp [hne]

theorem gesv_mixed_positive_info_witness :
    (gesv_mixed envSingHi 2 true 1 2 0 ()).usedFallback = true
    ∧ (gesv_mixed envSingHi 2 true 1 2 0 ()).info = (envSingHi.getrf_hi 1).1
    ∧ (gesv_mixed envSingHi 2 true 1 2 0 ()).hiSolved = false := by
  exact gesv_mixed_positive_info envSingHi 2 1 2 0 () (by decide)

/-- C10: when iterative refinement converges (status 0, `iter >= 0`, for
any non-negative `itermax`), the full-precision factorization and solve are
never invoked and `A` is unchanged on exit; `A` (and the pivots) are
overwritten by the full-precision factorization exactly when the fallback
path runs, which requires non-convergence and the fallback policy
enabled. -/
theorem gesv_mixed_frame {M Mlo P : Type} (env : GesvEnv M Mlo P)
    (itermax : Int) (ufb : Bool) (A B X0 : M) (piv0 : P)
    (hmax : 0 ≤ itermax) :
    ((gesv_mixed env itermax ufb A B X0 piv0).info = 0
        ∧ 0 ≤ (gesv_mixed env itermax ufb A B X0 piv0).iter →
      (gesv_mixed env itermax ufb A B X0 piv0).usedFallback = false
      ∧ (gesv_mixed env itermax ufb A B X0 piv0).hiSolved = false
      ∧ (gesv_mixed env itermax ufb A B X0 piv0).A = A)
    ∧ ((gesv_mixed env itermax ufb A B X0 piv0).usedFallback = false →
        (gesv_mixed env itermax ufb A B X0 piv0).A = A)
    ∧ ((gesv_mixed env itermax ufb A B X0 piv0).usedFallback = true →
        ufb = true
        ∧ (gesv_mixed env itermax ufb A B X0 piv0).iter < 0
        ∧ (gesv_mixed env itermax ufb A B X0 piv0).A
            = (env.getrf_hi A).2.1
        ∧ (gesv_mixed env itermax ufb A B X0 piv0).piv
            = (env.getrf_hi A).2.2) := by
  by_cases h0 : (gesvFlo env A).1 = 0
  · by_cases hc : gesvConvAt env A B 0 = true
    · rw [gesv_shape_conv0 env itermax ufb A B X0 piv0 h0 hc]
      exact ⟨fun _ => ⟨rfl, rfl, rfl⟩, fun _ => rfl, fun h => by simp at h⟩
    · rw [Bool.not_eq_true] at hc
      rcases hr : (gesvLoop env itermax A B).1 with _ | i
      · rw [gesv_shape_none env itermax ufb A B X0 piv0 h0 hc hr]
        have hiter := gesvFallback_iter env ufb A B
          (gesvLoop env itermax A B).2.1 (gesvFlo env A).2.2
          (-itermax - 1) (gesvFlo env A).1
          (1 + (gesvLoop env itermax A B).2.2.2)
          (gesvLoop env itermax A B).2.2.2
        have hneg : (gesvFallback env ufb A B (gesvLoop env itermax A B).2.1
            (gesvFlo env A).2.2 (-itermax - 1) (gesvFlo env A).1
            (1 + (gesvLoop env itermax A B).2.2.2)
            (gesvLoop env itermax A B).2.2.2).iter < 0 := by
          rw [hiter]; omega
        refine ⟨fun h => absurd h.2 (by omega), ?_, ?_⟩
        · intro hu
          rw [gesvFallback_usedFallback] at hu
          rw [gesvFallback_A, hu, if_neg (by simp)]
        · intro hu
          rw [gesvFallback_usedFallback] at hu
          exact ⟨hu, hneg,
            by rw [gesvFallback_A, hu, if_pos rfl],
            by rw [gesvFallback_piv, hu, if_pos rfl]⟩
      · rw [gesv_shape_some env itermax ufb A B X0 piv0 h0 hc hr]
        exact ⟨fun _ => ⟨rfl, rfl, rfl⟩, fun _ => rfl, fun h => by simp at h⟩
  · rw [gesv_shape_neg env itermax ufb A B X0 piv0 h0]
    have hiter := gesvFallback_iter env ufb A B X0 (gesvFlo env A).2.2
      (-3) (gesvFlo env A).1 0 0
    refine ⟨fun h => absurd h.2 (by rw [hiter]; omega), ?_, ?_⟩
    · intro hu
      rw [gesvFallback_usedFallback] at hu
      rw [gesvFallback_A, hu, if_neg (by simp)]
    · intro hu
      rw [gesvFallback_usedFallback] at hu
      exact ⟨hu, by rw [hiter]; omega,
        by rw [gesvFallback_A, hu, if_pos rfl],
        by rw [gesvFallback_piv, hu, if_pos rfl]⟩

theorem gesv_mixed_frame_witness :
    ((gesv_mixed envConvNow 30 true 1 2 0 ()).usedFallback = false
      ∧ (gesv_mixed envConvNow 30 true 1 2 0 ()).hiSolved = false
      ∧ (gesv_mixed envConvNow 30 true 1 2 0 ()).A = 1)
    ∧ ((gesv_mixed envNever 2 true 1 2 0 ()).iter < 0
      ∧ (gesv_mixed envNever 2 true 1 2 0 ()).A
          = (envNever.getrf_hi 1).2.1) := by
  have h1 := (gesv_mixed_frame envConvNow 30 true 1 2 0 () (by omega)).1
    (by constructor <;> decide)
  have h2 := (gesv_mixed_frame envNever 2 true 1 2 0 () (by omega)).2.2
    (by decide)
  exact ⟨h1, h2.2.1, h2.2.2.1⟩

/-- C5: the public `slate::herk` entry point runs the scheduler with
lookahead 1 when the options map has no `Lookahead` entry (the `at` call
throws and the handler assigns 1), and with the entry's integer value when
one is present. -/
theorem herk_lookahead_default (opts : List (OptionName × Int)) :
    (optLookup opts OptionName.Lookahead = none → herkLookahead opts = 1)
    ∧ ∀ v : Int, optLookup opts OptionName.Lookahead = some v →
        herkLookahead opts = v := by
  constructor
  · intro h
    rw [herkLookahead, h]
  · intro v h
    rw [herkLookahead, h]

theorem herk_lookahead_default_witness :
    herkLookahead [] = 1
    ∧ herkLookahead [(OptionName.MaxIterations, 9),
        (OptionName.Lookahead, 5)] = 5 :=
  ⟨(herk_lookahead_default []).1 rfl,
   (herk_lookahead_default [(OptionName.MaxIterations, 9),
      (OptionName.Lookahead, 5)]).2 5 (by decide)⟩

lemma tileMoveToHost_idem {γ : Type} (t : DTile γ) :
    tileMoveToHost (tileMoveToHost t) = tileMoveToHost t := rfl

/-- Running the epilogue's move loop over an index list moves exactly the
listed tiles, each from its pre-loop contents. -/
lemma foldl_move_read {γ : Type} (l : List (Nat × Nat)) (C : TileMap γ)
    (p : Nat × Nat) :
    (l.foldl (fun Cm q => updTile Cm q (tileMoveToHost (Cm q))) C) p
      = if p ∈ l then tileMoveToHost (C p) else C p := by
  induction l generalizing C with
  | nil => simp
  | cons q t ih =>
      simp only [List.foldl_cons]
      rw [ih]
      by_cases hpq : p = q
      · subst hpq
        by_cases hpt : p ∈ t
        · simp [hpt, updTile, tileMoveToHost_idem]
        · simp [hpt, updTile]
      · by_cases hpt : p ∈ t
        · simp [hpt, hpq, updTile]
        · simp [hpt, hpq, updTile]

lemma mem_lowerLocalIdx {mt nt : Nat} {isLocal : Nat → Nat → Bool}
    {i j : Nat} :
    (i, j) ∈ lowerLocalIdx mt nt isLocal ↔
      j < nt ∧ j ≤ i ∧ i < mt ∧ isLocal i j = true := by
  simp only [lowerLocalIdx, List.mem_flatMap, List.mem_map, List.mem_filter,
    List.mem_range, Bool.and_eq_true, decide_eq_true_eq, Prod.mk.injEq]
  constructor
  · rintro ⟨j2, hj2, i2, ⟨hi2, hle, hloc⟩, rfl, rfl⟩
    exact ⟨hj2, hle, hi2, hloc⟩
  · rintro ⟨hj, hle, hi, hloc⟩
    exact ⟨j, hj, i, ⟨hi, hle, hloc⟩, rfl, rfl⟩

/-- C7: after the epilogue of the pipelined herk (for every target), every
locally-owned tile of the stored (lower) triangle of `C` has its host
origin equal to the tile's pre-epilogue current contents (so a subsequent
host-backend operation observes the updated contents), and no workspace
copy survives anywhere. -/
theorem herk_flush_invariant {γ : Type} (mt nt : Nat)
    (isLocal : Nat → Nat → Bool) (C : TileMap γ) (i j : Nat)
    (hj : j < nt) (hji : j ≤ i) (hi : i < mt) (hloc : isLocal i j = true) :
    (herkEpilogue mt nt isLocal C (i, j)).host = tileRead (C (i, j))
    ∧ ∀ p : Nat × Nat, (herkEpilogue mt nt isLocal C p).dev = none := by
  constructor
  · show (herkMoveLower mt nt isLocal C (i, j)).host = tileRead (C (i, j))
    rw [herkMoveLower, foldl_move_read,
      if_pos (mem_lowerLocalIdx.mpr ⟨hj, hji, hi, hloc⟩)]
    rfl
  · intro p
    rfl

theorem herk_flush_invariant_witness :
    (herkEpilogue 2 2 (fun _ _ => true)
        (fun _ => (⟨5, some 7⟩ : DTile Nat)) (1, 0)).host = 7
    ∧ (herkEpilogue 2 2 (fun _ _ => true)
        (fun _ => (⟨5, some 7⟩ : DTile Nat)) (0, 1)).dev = none := by
  have h := herk_flush_invariant 2 2 (fun _ _ => true)
    (fun _ => (⟨5, some 7⟩ : DTile Nat)) 1 0 (by omega) (by omega) (by omega)
    rfl
  exact ⟨h.1.trans rfl, h.2 (0, 1)⟩

/-- C8: in `heev` the stages run in the fixed order — distributed band
reduction, then the gather of the band matrix onto the designated process
(grid rank 0), and only then the band-to-tridiagonal reduction, diagonal
extraction, and tridiagonal eigensolver, the latter three executed
exclusively on the designated process: a process of nonzero rank performs
none of them. -/
theorem heev_stage_order (rank : Nat) :
    (heevStages rank).indexOf HeevStage.he2hb
        < (heevStages rank).indexOf HeevStage.he2hbGather
    ∧ (rank = 0 →
        (heevStages rank).indexOf HeevStage.he2hbGather
            < (heevStages rank).indexOf HeevStage.hb2st
        ∧ (heevStages rank).indexOf HeevStage.hb2st
            < (heevStages rank).indexOf HeevStage.copyhb2st
        ∧ (heevStages rank).indexOf HeevStage.copyhb2st
            < (heevStages rank).indexOf HeevStage.sterf)
    ∧ (rank ≠ 0 →
        HeevStage.hb2st ∉ heevStages rank
        ∧ HeevStage.copyhb2st ∉ heevStages rank
        ∧ HeevStage.sterf ∉ heevStages rank) := by
  by_cases h : rank = 0
  · subst h
    exact ⟨by decide, fun _ => by decide, fun hne => absurd rfl hne⟩
  · rw [heevStages, if_neg h]
    exact ⟨by decide, fun h0 => absurd h0 h, fun _ => by decide⟩

theorem heev_stage_order_witness :
    ((heevStages 0).indexOf HeevStage.he2hbGather
        < (heevStages 0).indexOf HeevStage.hb2st)
    ∧ HeevStage.sterf ∉ heevStages 1 :=
  ⟨((heev_stage_order 0).2.1 rfl).1, ((heev_stage_order 1).2.2 (by omega)).2.2⟩

/-- C9: on return from `heev` the eigenvalue vector `W` has length `n` on
every process, but on every process other than the designated rank 0 its
contents are exactly the result of the `resize` (no stage writes them, and
they do not depend on the computed eigenvalues — no broadcast occurs). -/
theorem heev_W_local_only {α : Type} (rank n : Nat) (d : α)
    (eig eig2 : Nat → α) (w : List α) :
    (heevW rank n d eig w).length = n
    ∧ (rank ≠ 0 →
        heevW rank n d eig w = vecResize w n d
        ∧ heevW rank n d eig w = heevW rank n d eig2 w) := by
  constructor
  · rw [heevW]
    by_cases h : rank = 0
    · simp [h]
    · rw [if_neg h, vecResize]
      simp only [List.length_append, List.length_take, List.length_replicate]
      omega
  · intro h
    rw [heevW, heevW, if_neg h, if_neg h]
    exact ⟨rfl, rfl⟩

theorem heev_W_local_only_witness :
    (heevW 1 3 0 (fun k => k) [10, 20]).length = 3
    ∧ heevW 1 3 0 (fun k => k) [10, 20] = vecResize [10, 20] 3 0 := by
  have h := heev_W_local_only 1 3 0 (fun k => k) (fun k => k + 1) [10, 20]
  exact ⟨h.1, (h.2 (by omega)).1⟩

end Slate
